import Mathlib

/-!
Verification of the project model and loader of `src/project.rs`.

Embedding conventions:
* Rust `String` values and `&str` slices are represented by their UTF-8 byte
  sequences, as `List Nat` (each element one byte).
* Rust `Path`/`PathBuf` (Unix `OsStr`) values are raw byte sequences, also
  `List Nat`; the Unix path component structure (`components`, `file_name`,
  `parent`, `join`) is embedded below following `std::path` semantics.
* The filesystem consumed by `fs::metadata` / `fs::read_to_string` is an
  explicit map from paths to entries (`Fs`); an absent entry covers both a
  nonexistent path and a failed metadata lookup, which `locate` treats alike.
* Fallible operations return `Except`/`Option`; `unwrap` panics are modelled
  by an `Option` result where `none` marks the panic.
* `serde_json` is external library code: its JSON data model is embedded as
  the inductive `Json` and its text grammar as an executable recursive
  descent routine (restricted to integer numeric literals and to string
  escapes other than `\u`, which no behaviour verified here depends on;
  its recursion limit is the explicit fuel). The derived `Deserialize`
  implementations of `Project` (with `deny_unknown_fields` and `camelCase`
  renaming) and `ProjectNode` (with `flatten` children) are embedded as the
  field-driver routines `projectFields` and `nodeFields`, which process map
  entries in document order exactly as the derived code does, except that a
  child value is deserialized where it is encountered rather than from a
  buffer after the map ends (the difference is only in which of two errors
  is reported for documents that fail anyway).
* `log::warn!` diagnostics have no effect on any data; the validation pass
  returns the list of offending child names it warns about.
-/

namespace Rojo

/-- UTF-8 bytes of an ASCII string literal (all literals used here are ASCII). -/
def ascii (s : String) : List Nat := s.data.map Char.toNat

/-- Is `b` a UTF-8 continuation byte (`0x80`–`0xBF`)? -/
def isCont (b : Nat) : Bool := 128 ≤ b && b ≤ 191

/-- RFC 3629 UTF-8 validity of a byte sequence, the check performed by
`str::from_utf8` (hence by `OsStr::to_str` and `fs::read_to_string`). -/
def validUtf8 : List Nat → Bool
  | [] => true
  | b :: rest =>
    if b ≤ 127 then validUtf8 rest
    else if 194 ≤ b ∧ b ≤ 223 then
      match rest with
      | c1 :: r => isCont c1 && validUtf8 r
      | [] => false
    else if b = 224 then
      match rest with
      | c1 :: c2 :: r => (160 ≤ c1 && c1 ≤ 191) && isCont c2 && validUtf8 r
      | _ => false
    else if (225 ≤ b ∧ b ≤ 236) ∨ b = 238 ∨ b = 239 then
      match rest with
      | c1 :: c2 :: r => isCont c1 && isCont c2 && validUtf8 r
      | _ => false
    else if b = 237 then
      match rest with
      | c1 :: c2 :: r => (128 ≤ c1 && c1 ≤ 159) && isCont c2 && validUtf8 r
      | _ => false
    else if b = 240 then
      match rest with
      | c1 :: c2 :: c3 :: r => (144 ≤ c1 && c1 ≤ 191) && isCont c2 && isCont c3 && validUtf8 r
      | _ => false
    else if 241 ≤ b ∧ b ≤ 243 then
      match rest with
      | c1 :: c2 :: c3 :: r => isCont c1 && isCont c2 && isCont c3 && validUtf8 r
      | _ => false
    else if b = 244 then
      match rest with
      | c1 :: c2 :: c3 :: r => (128 ≤ c1 && c1 ≤ 143) && isCont c2 && isCont c3 && validUtf8 r
      | _ => false
    else false

/-- `OsStr::to_str`: the same bytes when they are valid UTF-8, otherwise `None`. -/
def osToStr (s : List Nat) : Option (List Nat) :=
  if validUtf8 s then some s else none

/-- `str::ends_with` with an ASCII pattern: byte-suffix comparison. -/
def endsWithBytes (name suffix : List Nat) : Bool :=
  suffix.isSuffixOf name

/-- Split a byte sequence at `/` (byte 47), keeping empty pieces. -/
def splitSlash : List Nat → List (List Nat)
  | [] => [[]]
  | b :: rest =>
    if b = 47 then [] :: splitSlash rest
    else
      match splitSlash rest with
      | [] => [[b]]
      | s :: ss => (b :: s) :: ss

/-- One component of a Unix path, following `std::path::Component`
(`Prefix` never occurs on Unix). -/
inductive PathComponent where
  | rootDir
  | curDir
  | parentDir
  | normal (s : List Nat)
deriving DecidableEq

/-- Classify one non-empty piece between separators. -/
def toComponent (s : List Nat) : PathComponent :=
  if s = [46] then .curDir
  else if s = [46, 46] then .parentDir
  else .normal s

/-- `Path::components` on Unix: a leading `/` is `RootDir`; empty pieces are
skipped; `.` pieces are skipped except as the very first component of a
relative path. -/
def components (p : List Nat) : List PathComponent :=
  let parts := ((splitSlash p).filter (fun s => s ≠ [])).map toComponent
  if p.head? = some 47 then
    PathComponent.rootDir :: parts.filter (fun c => c ≠ PathComponent.curDir)
  else
    match parts with
    | .curDir :: rest => .curDir :: rest.filter (fun c => c ≠ PathComponent.curDir)
    | l => l.filter (fun c => c ≠ PathComponent.curDir)

/-- `Path::file_name`: the final component when it is a normal component,
`None` when the path is empty, ends in `..`, or is the root. -/
def file_name (p : List Nat) : Option (List Nat) :=
  match (components p).getLast? with
  | some (.normal s) => some s
  | _ => none

/-- Render a component list back to bytes (used by the `parent` embedding). -/
def renderComponents (cs : List PathComponent) : List Nat :=
  let part : PathComponent → List Nat
    | .rootDir => []
    | .curDir => [46]
    | .parentDir => [46, 46]
    | .normal s => s
  match cs with
  | .rootDir :: rest => 47 :: List.intercalate [47] (rest.map part)
  | l => List.intercalate [47] (l.map part)

/-- `Path::parent`: the path minus its final component; `None` when there is
no component or the only remaining component is the root. -/
def parent (p : List Nat) : Option (List Nat) :=
  match (components p).getLast? with
  | none => none
  | some .rootDir => none
  | some _ => some (renderComponents (components p).dropLast)

/-- `Path::join` with the relative pieces used by this module. -/
def pathJoin (p q : List Nat) : List Nat :=
  if q.head? = some 47 then q
  else if p = [] then q
  else if p.getLast? = some 47 then p ++ q
  else p ++ 47 :: q

/-- The `serde_json` data model (numbers restricted to integers; no claim
verified here involves a fractional literal). Strings carry UTF-8 bytes. -/
inductive Json where
  | null
  | bool (b : Bool)
  | num (n : Int)
  | str (s : List Nat)
  | arr (xs : List Json)
  | obj (fields : List (List Nat × Json))

/-- Is `b` a JSON whitespace byte? -/
def isWsByte (b : Nat) : Bool := b = 32 || b = 9 || b = 10 || b = 13

/-- Drop leading JSON whitespace. -/
def skipWs : List Nat → List Nat
  | [] => []
  | b :: rest => if isWsByte b then skipWs rest else b :: rest

/-- Decode one escape character after a backslash (`\u` is not modelled). -/
def decodeEscape (b : Nat) : Option Nat :=
  if b = 34 then some 34
  else if b = 92 then some 92
  else if b = 47 then some 47
  else if b = 98 then some 8
  else if b = 102 then some 12
  else if b = 110 then some 10
  else if b = 114 then some 13
  else if b = 116 then some 9
  else none

/-- Read a JSON string body after the opening quote, up to and including the
closing quote; yields the content bytes and the rest of the input. -/
def readStringBody : List Nat → Option (List Nat × List Nat)
  | [] => none
  | b :: rest =>
    if b = 34 then some ([], rest)
    else if b = 92 then
      match rest with
      | [] => none
      | e :: rest2 => do
        let c ← decodeEscape e
        let (s, r) ← readStringBody rest2
        some (c :: s, r)
    else if b < 32 then none
    else do
      let (s, r) ← readStringBody rest
      some (b :: s, r)

/-- Accumulate decimal digits. -/
def readDigits (acc : Nat) : List Nat → Nat × List Nat
  | [] => (acc, [])
  | b :: rest =>
    if 48 ≤ b ∧ b ≤ 57 then readDigits (acc * 10 + (b - 48)) rest
    else (acc, b :: rest)

/-- Read an integer JSON numeric literal (fractions and exponents are outside
the modelled grammar and are rejected). -/
def readNumber (input : List Nat) : Option (Int × List Nat) :=
  match input with
  | 45 :: b :: rest =>
    if 48 ≤ b ∧ b ≤ 57 then
      let (n, r) := readDigits (b - 48) rest
      match r with
      | 46 :: _ => none
      | 101 :: _ => none
      | 69 :: _ => none
      | _ => some (-(n : Int), r)
    else none
  | b :: rest =>
    if 48 ≤ b ∧ b ≤ 57 then
      let (n, r) := readDigits (b - 48) rest
      match r with
      | 46 :: _ => none
      | 101 :: _ => none
      | 69 :: _ => none
      | _ => some ((n : Int), r)
    else none
  | [] => none

mutual

/-- Read one JSON value; the fuel bounds the nesting depth, standing in for
the recursion limit of `serde_json`. -/
def readValue : Nat → List Nat → Option (Json × List Nat)
  | 0, _ => none
  | Nat.succ fuel, input =>
    match skipWs input with
    | [] => none
    | b :: rest =>
      if b = 110 then
        match rest with
        | 117 :: 108 :: 108 :: r => some (.null, r)
        | _ => none
      else if b = 116 then
        match rest with
        | 114 :: 117 :: 101 :: r => some (.bool true, r)
        | _ => none
      else if b = 102 then
        match rest with
        | 97 :: 108 :: 115 :: 101 :: r => some (.bool false, r)
        | _ => none
      else if b = 34 then do
        let (s, r) ← readStringBody rest
        if validUtf8 s then some (.str s, r) else none
      else if b = 91 then
        match skipWs rest with
        | 93 :: r => some (.arr [], r)
        | r2 => do
          let (xs, r) ← readItems fuel r2
          some (.arr xs, r)
      else if b = 123 then
        match skipWs rest with
        | 125 :: r => some (.obj [], r)
        | r2 => do
          let (fs, r) ← readMembers fuel r2
          some (.obj fs, r)
      else readNumber (b :: rest) |>.map (fun nr => (.num nr.1, nr.2))

/-- Read the items of a non-empty JSON array up to `]`. -/
def readItems : Nat → List Nat → Option (List Json × List Nat)
  | 0, _ => none
  | Nat.succ fuel, input => do
    let (v, r) ← readValue fuel input
    match skipWs r with
    | 44 :: r2 => do
      let (vs, r3) ← readItems fuel r2
      some (v :: vs, r3)
    | 93 :: r2 => some ([v], r2)
    | _ => none

/-- Read the members of a non-empty JSON object up to the closing brace. -/
def readMembers : Nat → List Nat → Option (List (List Nat × Json) × List Nat)
  | 0, _ => none
  | Nat.succ fuel, input =>
    match skipWs input with
    | 34 :: r => do
      let (k, r2) ← readStringBody r
      if validUtf8 k then
        match skipWs r2 with
        | 58 :: r3 => do
          let (v, r4) ← readValue fuel r3
          match skipWs r4 with
          | 44 :: r5 => do
            let (ms, r6) ← readMembers fuel r5
            some ((k, v) :: ms, r6)
          | 125 :: r5 => some ([(k, v)], r5)
          | _ => none
        | _ => none
      else none
    | _ => none

end

/-- Parse a whole JSON document: one value plus trailing whitespace only. -/
def parseJsonBytes (bs : List Nat) : Option Json := do
  let (v, r) ← readValue (bs.length + 1) bs
  if skipWs r = [] then some v else none

/-- `PROJECT_FILENAME`: name of the default project file inside a directory. -/
def PROJECT_FILENAME : List Nat := ascii ("default.project.json")

/-- The suffix that marks a file name as a project file. -/
def projectSuffix : List Nat := ascii (".project.json")

/-- JSON key `$className`. -/
def keyClassName : List Nat := ascii ("$className")

/-- JSON key `$properties`. -/
def keyProperties : List Nat := ascii ("$properties")

/-- JSON key `$ignoreUnknownInstances`. -/
def keyIgnoreUnknownInstances : List Nat := ascii ("$ignoreUnknownInstances")

/-- JSON key `$path`. -/
def keyPath : List Nat := ascii ("$path")

/-- JSON key `name`. -/
def keyName : List Nat := ascii ("name")

/-- JSON key `tree`. -/
def keyTree : List Nat := ascii ("tree")

/-- JSON key `servePort` (`serve_port` under `rename_all = "camelCase"`). -/
def keyServePort : List Nat := ascii ("servePort")

/-- JSON key `servePlaceIds` (`serve_place_ids` under camelCase renaming). -/
def keyServePlaceIds : List Nat := ascii ("servePlaceIds")

/-- `ProjectNode`: describes an instance and its descendants in a project.
Fields in source order: `class_name`, `children` (the flattened `BTreeMap`,
kept sorted by key), `properties` (the `HashMap`, kept in insertion order
with property values as raw JSON, since `UnresolvedRbxValue` resolution is
outside this module), `ignore_unknown_instances`, `path`. -/
inductive ProjectNode where
  | mk (class_name : Option (List Nat))
       (children : List (List Nat × ProjectNode))
       (properties : List (List Nat × Json))
       (ignore_unknown_instances : Option Bool)
       (path : Option (List Nat))

/-- Field accessor: `class_name`. -/
def ProjectNode.class_name : ProjectNode → Option (List Nat)
  | .mk x _ _ _ _ => x

/-- Field accessor: `children`. -/
def ProjectNode.children : ProjectNode → List (List Nat × ProjectNode)
  | .mk _ x _ _ _ => x

/-- Field accessor: `properties`. -/
def ProjectNode.properties : ProjectNode → List (List Nat × Json)
  | .mk _ _ x _ _ => x

/-- Field accessor: `ignore_unknown_instances`. -/
def ProjectNode.ignore_unknown_instances : ProjectNode → Option Bool
  | .mk _ _ _ x _ => x

/-- Field accessor: `path`. -/
def ProjectNode.path : ProjectNode → Option (List Nat)
  | .mk _ _ _ _ x => x

/-- Modelled from the spec: the defaulting rule for `$ignoreUnknownInstances`,
which the reconciliation engine (outside `src/`) applies when the parsed
field is unset; `src/project.rs` records the rule in the field's
documentation (lines 184–186) but the applying code is not part of `src/`:
"`true` if `path` is unset, `false` if `path` is set", and an explicit
value always wins. -/
def ProjectNode.effective_ignore_unknown_instances (n : ProjectNode) : Bool :=
  match n.ignore_unknown_instances with
  | some b => b
  | none => n.path.isNone

/-- Byte-lexicographic order on keys, the `Ord` used by `BTreeMap<String, _>`. -/
def keyLt : List Nat → List Nat → Bool
  | [], [] => false
  | [], _ :: _ => true
  | _ :: _, [] => false
  | a :: as, b :: bs => a < b || (a = b && keyLt as bs)

/-- `BTreeMap::insert`: keep the association list sorted by key, replacing an
equal key. -/
def btreeInsert (k : List Nat) (v : ProjectNode) :
    List (List Nat × ProjectNode) → List (List Nat × ProjectNode)
  | [] => [(k, v)]
  | (k', v') :: rest =>
    if keyLt k k' then (k, v) :: (k', v') :: rest
    else if k = k' then (k, v) :: rest
    else (k', v') :: btreeInsert k v rest

/-- `HashMap` insertion: replace an equal key, else append. -/
def hashInsert (k : List Nat) (v : Json) :
    List (List Nat × Json) → List (List Nat × Json)
  | [] => [(k, v)]
  | (k', v') :: rest =>
    if k = k' then (k, v) :: rest
    else (k', v') :: hashInsert k v rest

/-- `HashMap<String, UnresolvedRbxValue>` deserialization from object members
in document order (later duplicates overwrite). -/
def hashFromList (l : List (List Nat × Json)) : List (List Nat × Json) :=
  l.foldl (fun acc kv => hashInsert kv.1 kv.2 acc) []

mutual

/-- Total size of a JSON value (fuel for the node deserializer; it bounds
the work of a nested map traversal). -/
def jsonSize : Json → Nat
  | .arr xs => jsonSizeList xs + 1
  | .obj fields => jsonSizeFields fields + 1
  | _ => 1

/-- Total size of a list of JSON values. -/
def jsonSizeList : List Json → Nat
  | [] => 0
  | x :: rest => jsonSize x + jsonSizeList rest

/-- Total size of the member list of a JSON object. -/
def jsonSizeFields : List (List Nat × Json) → Nat
  | [] => 0
  | (_, v) :: rest => jsonSize v + 1 + jsonSizeFields rest

end

/-- Deserialization errors of the embedded `serde_json` pipeline. -/
inductive PErr where
  | malformed
  | typeErr
  | duplicateField
  | unknownField (key : List Nat)
  | missingField
  | recursionLimit
deriving DecidableEq

/-- The in-progress state of the derived `ProjectNode` deserializer: the
four reserved fields as "seen?"-wrapped options (the derived code's local
`Option`s, distinguishing "field never seen" for duplicate detection from
the deserialized value) plus the accumulated `children` map. -/
def NodeSt : Type :=
  Option (Option (List Nat)) × Option (List (List Nat × Json)) ×
  Option (Option Bool) × Option (Option (List Nat)) ×
  List (List Nat × ProjectNode)

/-- Deserialize the `$className` field (`Option<String>`), detecting a
duplicate occurrence. -/
def deserClassName : Option (Option (List Nat)) → Json → Except PErr (Option (Option (List Nat)))
  | some _, _ => .error .duplicateField
  | none, .str s => .ok (some (some s))
  | none, .null => .ok (some none)
  | none, _ => .error .typeErr

/-- Deserialize the `$properties` field (`HashMap<String, UnresolvedRbxValue>`,
property values kept as raw JSON). -/
def deserProps : Option (List (List Nat × Json)) → Json → Except PErr (Option (List (List Nat × Json)))
  | some _, _ => .error .duplicateField
  | none, .obj pfields => .ok (some (hashFromList pfields))
  | none, _ => .error .typeErr

/-- Deserialize the `$ignoreUnknownInstances` field (`Option<bool>`). -/
def deserIui : Option (Option Bool) → Json → Except PErr (Option (Option Bool))
  | some _, _ => .error .duplicateField
  | none, .bool b => .ok (some (some b))
  | none, .null => .ok (some none)
  | none, _ => .error .typeErr

/-- Deserialize the `$path` field (`Option<PathBuf>`). -/
def deserPath : Option (Option (List Nat)) → Json → Except PErr (Option (Option (List Nat)))
  | some _, _ => .error .duplicateField
  | none, .str s => .ok (some (some s))
  | none, .null => .ok (some none)
  | none, _ => .error .typeErr

/-- Handle one map entry of a `ProjectNode` when its key is one of the four
reserved names: `some` outcome (updated state or error); `none` marks a
non-reserved key, to be deserialized into the flattened `children` map. -/
def applyNodeField (k : List Nat) (v : Json)
    (cn : Option (Option (List Nat))) (pr : Option (List (List Nat × Json)))
    (iui : Option (Option Bool)) (pa : Option (Option (List Nat)))
    (ch : List (List Nat × ProjectNode)) : Option (Except PErr NodeSt) :=
  if k = keyClassName then
    some ((deserClassName cn v).map (fun cn' => (cn', pr, iui, pa, ch)))
  else if k = keyProperties then
    some ((deserProps pr v).map (fun pr' => (cn, pr', iui, pa, ch)))
  else if k = keyIgnoreUnknownInstances then
    some ((deserIui iui v).map (fun iui' => (cn, pr, iui', pa, ch)))
  else if k = keyPath then
    some ((deserPath pa v).map (fun pa' => (cn, pr, iui, pa', ch)))
  else none

mutual

/-- `<ProjectNode as Deserialize>::deserialize`: a node parses from a JSON
map only; the fuel stands in for the recursion limit of `serde_json`. -/
def nodeFromJsonF : Nat → Json → Except PErr ProjectNode
  | 0, _ => .error .recursionLimit
  | Nat.succ fuel, .obj fields => nodeFields fuel fields none none none none []
  | Nat.succ _, _ => .error .typeErr

/-- The field driver of the derived `ProjectNode` deserializer: walk the map
entries in document order, treating each through `applyNodeField` and
deserializing every non-reserved key recursively into `children`. -/
def nodeFields : Nat → List (List Nat × Json) →
    Option (Option (List Nat)) → Option (List (List Nat × Json)) →
    Option (Option Bool) → Option (Option (List Nat)) →
    List (List Nat × ProjectNode) → Except PErr ProjectNode
  | _, [], cn, pr, iui, pa, ch =>
    .ok (ProjectNode.mk cn.join ch (pr.getD []) iui.join pa.join)
  | 0, _ :: _, _, _, _, _, _ => .error .recursionLimit
  | Nat.succ fuel, (k, v) :: rest, cn, pr, iui, pa, ch =>
    match applyNodeField k v cn pr iui pa ch with
    | some (.error e) => .error e
    | some (.ok (cn', pr', iui', pa', ch')) => nodeFields fuel rest cn' pr' iui' pa' ch'
    | none =>
      match nodeFromJsonF fuel v with
      | .error e => .error e
      | .ok child => nodeFields fuel rest cn pr iui pa (btreeInsert k child ch)

end

/-- Deserialize a `ProjectNode` from a JSON value, with enough fuel for the
value's own size. -/
def ProjectNode.fromJson (j : Json) : Except PErr ProjectNode :=
  nodeFromJsonF (jsonSize j) j

/-- Deserialize one `u64` (element of `servePlaceIds`). -/
def u64FromJson : Json → Option Nat
  | .num n => if 0 ≤ n ∧ n < 18446744073709551616 then some n.toNat else none
  | _ => none

/-- Deserialize `HashSet<u64>` from a JSON array (duplicates collapse). -/
def u64SetFromJson : List Json → Option (List Nat)
  | [] => some []
  | x :: rest => do
    let v ← u64FromJson x
    let s ← u64SetFromJson rest
    some (if s.contains v then s else v :: s)

/-- `Project`: the top-level parsed value. `serve_place_ids` is the
`HashSet<u64>` as a duplicate-free list; `file_location` is the
`#[serde(skip)]` `PathBuf`, absent from the JSON schema and defaulted to
the empty path by deserialization. -/
structure Project where
  name : List Nat
  tree : ProjectNode
  serve_port : Option Nat
  serve_place_ids : Option (List Nat)
  file_location : List Nat

/-- The in-progress state of the derived `Project` deserializer. -/
def ProjSt : Type :=
  Option (List Nat) × Option ProjectNode × Option (Option Nat) × Option (Option (List Nat))

/-- Deserialize the required `name` field (`String`). -/
def deserName : Option (List Nat) → Json → Except PErr (Option (List Nat))
  | some _, _ => .error .duplicateField
  | none, .str s => .ok (some s)
  | none, _ => .error .typeErr

/-- Deserialize the required `tree` field (`ProjectNode`). -/
def deserTree : Option ProjectNode → Json → Except PErr (Option ProjectNode)
  | some _, _ => .error .duplicateField
  | none, v => (ProjectNode.fromJson v).map some

/-- Deserialize one `Option<u16>` value. -/
def u16FromJson : Json → Except PErr (Option Nat)
  | .num n => if 0 ≤ n ∧ n < 65536 then .ok (some n.toNat) else .error .typeErr
  | .null => .ok none
  | _ => .error .typeErr

/-- Deserialize the `servePort` field (`Option<u16>`). -/
def deserPort : Option (Option Nat) → Json → Except PErr (Option (Option Nat))
  | some _, _ => .error .duplicateField
  | none, v => (u16FromJson v).map some

/-- Deserialize one `Option<HashSet<u64>>` value. -/
def placeIdsFromJson : Json → Except PErr (Option (List Nat))
  | .arr xs =>
    match u64SetFromJson xs with
    | some s => .ok (some s)
    | none => .error .typeErr
  | .null => .ok none
  | _ => .error .typeErr

/-- Deserialize the `servePlaceIds` field (`Option<HashSet<u64>>`). -/
def deserIds : Option (Option (List Nat)) → Json → Except PErr (Option (Option (List Nat)))
  | some _, _ => .error .duplicateField
  | none, v => (placeIdsFromJson v).map some

/-- Handle one top-level map entry of a `Project`: under
`deny_unknown_fields` with `camelCase` renaming, any key other than `name`,
`tree`, `servePort`, `servePlaceIds` is an unknown-field error. -/
def projectStep (k : List Nat) (v : Json) (nm : Option (List Nat))
    (tr : Option ProjectNode) (port : Option (Option Nat))
    (ids : Option (Option (List Nat))) : Except PErr ProjSt :=
  if k = keyName then
    (deserName nm v).map (fun nm' => (nm', tr, port, ids))
  else if k = keyTree then
    (deserTree tr v).map (fun tr' => (nm, tr', port, ids))
  else if k = keyServePort then
    (deserPort port v).map (fun port' => (nm, tr, port', ids))
  else if k = keyServePlaceIds then
    (deserIds ids v).map (fun ids' => (nm, tr, port, ids'))
  else .error (.unknownField k)

/-- The field driver of the derived `Project` deserializer: walk the map
entries in document order through `projectStep`; `name` and `tree` are
required at the end. -/
def projectFields : List (List Nat × Json) →
    Option (List Nat) → Option ProjectNode →
    Option (Option Nat) → Option (Option (List Nat)) → Except PErr Project
  | [], nm, tr, port, ids =>
    match nm, tr with
    | some n, some t => .ok (Project.mk n t port.join ids.join [])
    | _, _ => .error .missingField
  | (k, v) :: rest, nm, tr, port, ids =>
    match projectStep k v nm tr port ids with
    | .error e => .error e
    | .ok (nm', tr', port', ids') => projectFields rest nm' tr' port' ids'

/-- `<Project as Deserialize>::deserialize`: a project parses from a JSON
map only. -/
def Project.fromJson : Json → Except PErr Project
  | .obj fields => projectFields fields none none none none
  | _ => .error .typeErr

/-- `serde_json::from_slice` / `from_str` at type `Project`: text parse then
deserialize. -/
def from_slice (bs : List Nat) : Except PErr Project :=
  match parseJsonBytes bs with
  | some j => Project.fromJson j
  | none => .error .malformed

mutual

/-- `ProjectNode::validate_reserved_names`: depth-first walk over the node;
it only emits `log::warn!` diagnostics, embedded as the returned list of
offending child names (one entry per offending key; the source emits two
log lines per offense, a generic one and one naming the key). It takes the
node by shared reference, so the tree is untouched by construction. -/
def ProjectNode.validate_reserved_names : ProjectNode → List (List Nat)
  | .mk _ children _ _ _ => validateChildrenNames children

/-- The loop body of `validate_reserved_names` over the `children` map:
warn on keys starting with `'$'` (byte 36) and recurse into every child
regardless. -/
def validateChildrenNames : List (List Nat × ProjectNode) → List (List Nat)
  | [] => []
  | (name, child) :: rest =>
    (if name.head? = some 36 then [name] else [])
      ++ child.validate_reserved_names ++ validateChildrenNames rest

end

mutual

/-- All child keys of a node and of its descendants, in depth-first order
(reference traversal used to state completeness of the validation pass). -/
def allChildKeys : ProjectNode → List (List Nat)
  | .mk _ children _ _ _ => allChildKeysOf children

/-- All keys occurring in a `children` map, including descendants. -/
def allChildKeysOf : List (List Nat × ProjectNode) → List (List Nat)
  | [] => []
  | (name, child) :: rest => name :: (allChildKeys child ++ allChildKeysOf rest)

end

/-- `Project::check_compatibility`: runs the reserved-name validation over
the tree; its only effect is the emitted diagnostics. -/
def Project.check_compatibility (p : Project) : List (List Nat) :=
  p.tree.validate_reserved_names

/-- Replace the `file_location` stamped on a parsed project (the assignment
`project.file_location = ...` of the loader). -/
def Project.withFileLocation (p : Project) (loc : List Nat) : Project :=
  Project.mk p.name p.tree p.serve_port p.serve_place_ids loc

/-- One filesystem entry as observed through `fs::metadata`. -/
inductive FsEntry where
  | file (contents : List Nat)
  | dir
deriving DecidableEq

/-- The filesystem: a map from paths to entries; `none` covers both a
nonexistent path and a failed metadata lookup (the two are not
distinguished by any code under verification). -/
def Fs : Type := List Nat → Option FsEntry

/-- The error type of the project loader (`ProjectError` wrapping `Error`);
both variants carry the offending path, the wrapped `io::Error` and
`serde_json::Error` details being abstracted to the path plus, for the
JSON case, the embedded deserialization error. -/
inductive LoadErr where
  | Io (path : List Nat)
  | Json (path : List Nat) (e : PErr)
deriving DecidableEq

/-- The offending path carried by either loader error variant. -/
def LoadErr.path : LoadErr → List Nat
  | .Io p => p
  | .Json p _ => p

/-- `fs::read_to_string`: succeeds only on an existing regular file whose
contents are valid UTF-8 (a directory, a missing path, or invalid UTF-8 all
surface as an `io::Error`). -/
def read_to_string (fs : Fs) (p : List Nat) : Except Unit (List Nat) :=
  match fs p with
  | some (.file bs) => if validUtf8 bs then .ok bs else .error ()
  | _ => .error ()

/-- `Project::is_project_file`: name-only check,
`path.file_name().and_then(|n| n.to_str()).map(|n| n.ends_with(".project.json")).unwrap_or(false)`. -/
def Project.is_project_file (path : List Nat) : Bool :=
  (((file_name path).bind osToStr).map (fun name => endsWithBytes name projectSuffix)).getD false

/-- `Project::locate`: find the concrete project file named by a fuzzy path. -/
def Project.locate (fs : Fs) (path : List Nat) : Option (List Nat) :=
  match fs path with
  | none => none
  | some (.file _) =>
    if Project.is_project_file path then some path else none
  | some .dir =>
    let child_path := pathJoin path PROJECT_FILENAME
    match fs child_path with
    | none => none
    | some (.file _) => some child_path
    | some .dir => none

/-- `Project::load_from_slice`: deserialize the given bytes, stamp the given
location, run the compatibility check. -/
def Project.load_from_slice (contents : List Nat) (project_file_location : List Nat) :
    Except PErr Project :=
  match from_slice contents with
  | .error e => .error e
  | .ok project =>
    let stamped := project.withFileLocation project_file_location
    let _warnings := stamped.check_compatibility
    .ok stamped

/-- `Project::load_exact`: read the file as text, deserialize, stamp the
location, run the compatibility check; IO and parse failures carry the
offending path. -/
def Project.load_exact (fs : Fs) (project_file_location : List Nat) :
    Except LoadErr Project :=
  match read_to_string fs project_file_location with
  | .error _ => .error (.Io project_file_location)
  | .ok contents =>
    match from_slice contents with
    | .error e => .error (.Json project_file_location e)
    | .ok project =>
      let stamped := project.withFileLocation project_file_location
      let _warnings := stamped.check_compatibility
      .ok stamped

/-- `Project::load_fuzzy`: locate then strictly load; an unlocated project is
`Ok(None)`, a failing strict load propagates. -/
def Project.load_fuzzy (fs : Fs) (fuzzy_project_location : List Nat) :
    Except LoadErr (Option Project) :=
  match Project.locate fs fuzzy_project_location with
  | some project_path =>
    match Project.load_exact fs project_path with
    | .ok project => .ok (some project)
    | .error e => .error e
  | none => .ok none

/-- `Project::folder_location`: `self.file_location.parent().unwrap()`; the
`unwrap` panic on a parentless location is modelled by `none`. -/
def Project.folder_location (self : Project) : Option (List Nat) :=
  parent self.file_location

/-! Concrete fixtures used to instantiate the verified statements. -/

/-- `{"name":"Demo","tree":{"$className":"Folder"}}` as bytes. -/
def minimalDocBytes : List Nat :=
  ascii ("\x7b\"name\":\"Demo\",\"tree\":\x7b\"$className\":\"Folder\"\x7d\x7d")

/-- The root node that the minimal document describes. -/
def demoNode : ProjectNode := ProjectNode.mk (some (ascii ("Folder"))) [] [] none none

/-- A directory `/proj` holding a well-formed `default.project.json`. -/
def fsProj : Fs := fun q =>
  if q = ascii ("/proj") then some FsEntry.dir
  else if q = pathJoin (ascii ("/proj")) PROJECT_FILENAME then some (FsEntry.file minimalDocBytes)
  else none

/-- A directory `/bad` holding a `default.project.json` that is not JSON. -/
def fsBad : Fs := fun q =>
  if q = ascii ("/bad") then some FsEntry.dir
  else if q = pathJoin (ascii ("/bad")) PROJECT_FILENAME then some (FsEntry.file (ascii ("nope")))
  else none

/-- A directory `/odd` whose `default.project.json` is itself a directory. -/
def fsOdd : Fs := fun q =>
  if q = ascii ("/odd") then some FsEntry.dir
  else if q = pathJoin (ascii ("/odd")) PROJECT_FILENAME then some FsEntry.dir
  else none

/-- A tree with a child named `$foo` three levels deep. -/
def deepDollarTree : ProjectNode :=
  ProjectNode.mk none
    [(ascii ("a"), ProjectNode.mk none
      [(ascii ("b"), ProjectNode.mk none
        [(ascii ("$foo"), demoNode)] [] none none)] [] none none)] [] none none

/-! Helper lemmas. -/

/-- A project returned by `load_from_slice` carries the supplied location. -/
theorem load_from_slice_ok_file_location (bs loc : List Nat) (proj : Project)
    (h : Project.load_from_slice bs loc = .ok proj) : proj.file_location = loc := by
  unfold Project.load_from_slice at h
  split at h
  · exact absurd h (by simp)
  · injection h with h'
    subst h'
    rfl

/-- A project returned by `load_exact` carries the loaded path. -/
theorem load_exact_ok_file_location (fs : Fs) (q : List Nat) (proj : Project)
    (h : Project.load_exact fs q = .ok proj) : proj.file_location = q := by
  unfold Project.load_exact at h
  split at h
  · exact absurd h (by simp)
  · split at h
    · exact absurd h (by simp)
    · injection h with h'
      subst h'
      rfl

/-- Every error of `load_exact` carries the loaded path. -/
theorem load_exact_error_path (fs : Fs) (q : List Nat) (e : LoadErr)
    (h : Project.load_exact fs q = .error e) : e.path = q := by
  unfold Project.load_exact at h
  split at h
  · injection h with h'
    subst h'
    rfl
  · split at h
    · injection h with h'
      subst h'
      rfl
    · exact absurd h (by simp)

/-- C2: `locate` on an existing regular file returns that path exactly when
`is_project_file` holds; on an existing directory it returns the directly
contained regular file `default.project.json`, and nothing (not an error)
when that child is absent or itself a directory; on a nonexistent path (or
failed metadata lookup) it returns nothing — by its `Option` result type it
can never return an error. -/
theorem locate_characterization (fs : Fs) (p : List Nat) :
    (∀ bs, fs p = some (FsEntry.file bs) →
        (Project.is_project_file p = true → Project.locate fs p = some p)
      ∧ (Project.is_project_file p = false → Project.locate fs p = none))
  ∧ (fs p = some FsEntry.dir →
        (∀ bs, fs (pathJoin p PROJECT_FILENAME) = some (FsEntry.file bs) →
            Project.locate fs p = some (pathJoin p PROJECT_FILENAME))
      ∧ (fs (pathJoin p PROJECT_FILENAME) = some FsEntry.dir → Project.locate fs p = none)
      ∧ (fs (pathJoin p PROJECT_FILENAME) = none → Project.locate fs p = none))
  ∧ (fs p = none → Project.locate fs p = none) := by
  refine ⟨?_, ?_, ?_⟩
  · intro bs h
    constructor <;> intro hp <;> simp [Project.locate, h, hp]
  · intro h
    refine ⟨?_, ?_, ?_⟩ <;> intro _ <;> intros <;> simp_all [Project.locate]
  · intro h
    simp [Project.locate, h]

/-- C2 witness: concrete filesystems exercising the file, directory,
directory-shaped-child and missing cases. -/
theorem locate_characterization_witness :
    Project.locate fsProj (ascii ("/proj")) = some (pathJoin (ascii ("/proj")) PROJECT_FILENAME)
  ∧ Project.locate fsOdd (ascii ("/odd")) = none
  ∧ Project.locate fsProj (ascii ("/missing")) = none := by
  refine ⟨?_, ?_, ?_⟩
  · exact ((locate_characterization fsProj (ascii ("/proj"))).2.1 (by decide)).1
      minimalDocBytes (by decide)
  · exact ((locate_characterization fsOdd (ascii ("/odd"))).2.1 (by decide)).2.1 (by decide)
  · exact (locate_characterization fsProj (ascii ("/missing"))).2.2 (by decide)

/-- C3: for every path whose file name exists and decodes as UTF-8,
`is_project_file` holds exactly when that file name ends with the literal
suffix `.project.json`; moreover the check depends only on the file name
(hence not on directory depth), and — taking no filesystem argument at all —
it consults no file contents or metadata and is independent of existence. -/
theorem is_project_file_name_suffix (p : List Nat) :
    (∀ nm, file_name p = some nm → validUtf8 nm = true →
      (Project.is_project_file p = true ↔ endsWithBytes nm projectSuffix = true))
  ∧ (∀ q, file_name q = file_name p →
      Project.is_project_file q = Project.is_project_file p) := by
  constructor
  · intro nm h hu
    simp [Project.is_project_file, h, osToStr, hu]
  · intro q hq
    simp [Project.is_project_file, hq]

/-- C3 witness: a nested project file is recognized, and recognition is
unchanged under a different directory prefix. -/
theorem is_project_file_name_suffix_witness :
    Project.is_project_file (ascii ("a/b/default.project.json")) = true
  ∧ Project.is_project_file (ascii ("x/y/z/default.project.json"))
      = Project.is_project_file (ascii ("a/b/default.project.json")) := by
  constructor
  · exact ((is_project_file_name_suffix (ascii ("a/b/default.project.json"))).1
      PROJECT_FILENAME (by decide) (by decide)).mpr (by decide)
  · exact (is_project_file_name_suffix (ascii ("a/b/default.project.json"))).2
      (ascii ("x/y/z/default.project.json")) (by decide)

/-- C10: `is_project_file` is a total function (the embedding is a plain
`Bool`-valued function, mirroring that the source never errors or panics);
it returns `false` whenever the path has no final normal component, and
whenever the file name is not valid UTF-8 — even if the raw bytes end with
`.project.json`. -/
theorem is_project_file_totality (p : List Nat) :
    (file_name p = none → Project.is_project_file p = false)
  ∧ (∀ nm, file_name p = some nm → validUtf8 nm = false →
      Project.is_project_file p = false) := by
  constructor
  · intro h
    simp [Project.is_project_file, h]
  · intro nm h hu
    simp [Project.is_project_file, h, osToStr, hu]

/-- C10 witness: the root, the empty path, a path ending in `..`, and a
non-UTF-8 file name whose raw bytes end with `.project.json`. -/
theorem is_project_file_totality_witness :
    Project.is_project_file (ascii ("/")) = false
  ∧ Project.is_project_file ([]) = false
  ∧ Project.is_project_file (ascii ("a/..")) = false
  ∧ endsWithBytes (255 :: projectSuffix) projectSuffix = true
  ∧ Project.is_project_file (255 :: projectSuffix) = false := by
  refine ⟨?_, ?_, ?_, ?_, ?_⟩
  · exact (is_project_file_totality (ascii ("/"))).1 (by decide)
  · exact (is_project_file_totality ([])).1 (by decide)
  · exact (is_project_file_totality (ascii ("a/.."))).1 (by decide)
  · decide
  · exact (is_project_file_totality (255 :: projectSuffix)).2
      (255 :: projectSuffix) (by decide) (by decide)

/-- C9: whenever `file_location` has a parent directory, `folder_location`
returns exactly it, and the failure branch (`none`, modelling the `unwrap`
panic) is unreachable; without that precondition the call panics (`none`),
in particular for any project stamped by `load_from_slice` with the rootless
location `/` or the empty path. -/
theorem folder_location_parent_spec :
    (∀ (proj : Project) (d : List Nat), parent proj.file_location = some d →
        Project.folder_location proj = some d)
  ∧ (∀ proj : Project, parent proj.file_location = none →
        Project.folder_location proj = none)
  ∧ (∀ bs proj, Project.load_from_slice bs (ascii ("/")) = .ok proj →
        Project.folder_location proj = none)
  ∧ (∀ bs proj, Project.load_from_slice bs ([]) = .ok proj →
        Project.folder_location proj = none) := by
  refine ⟨?_, ?_, ?_, ?_⟩
  · intro proj d h
    exact h
  · intro proj h
    exact h
  · intro bs proj h
    have hl := load_from_slice_ok_file_location bs (ascii ("/")) proj h
    simp [Project.folder_location, hl]
    decide
  · intro bs proj h
    have hl := load_from_slice_ok_file_location bs ([]) proj h
    simp [Project.folder_location, hl]
    decide

/-- C9 witness: a project whose location has a parent yields it; the minimal
document stamped at `/` panics (modelled `none`). -/
theorem folder_location_parent_spec_witness :
    Project.folder_location (Project.mk (ascii ("Demo")) demoNode none none (ascii ("/a/b"))) = some (ascii ("/a"))
  ∧ Project.folder_location (Project.mk (ascii ("Demo")) demoNode none none (ascii ("/"))) = none := by
  constructor
  · exact folder_location_parent_spec.1
      (Project.mk (ascii ("Demo")) demoNode none none (ascii ("/a/b"))) (ascii ("/a")) (by decide)
  · exact folder_location_parent_spec.2.2.1 minimalDocBytes
      (Project.mk (ascii ("Demo")) demoNode none none (ascii ("/"))) rfl

/-- C6: the minimal document `{"name":"Demo","tree":{"$className":"Folder"}}`
parses successfully into a root node with empty `children`, empty
`properties`, unset `path` and unset `ignore_unknown_instances`, whose
effective `ignoreUnknownInstances` under the path-less default is `true`. -/
theorem minimal_document_load :
    Project.load_from_slice minimalDocBytes PROJECT_FILENAME =
      .ok (Project.mk (ascii ("Demo")) demoNode none none PROJECT_FILENAME)
  ∧ demoNode.children = []
  ∧ demoNode.properties = []
  ∧ demoNode.path = none
  ∧ demoNode.ignore_unknown_instances = none
  ∧ demoNode.effective_ignore_unknown_instances = true := by
  exact ⟨rfl, rfl, rfl, rfl, rfl, rfl⟩

/-- C4: `load_fuzzy` yields `Ok(None)` exactly when `locate` finds nothing;
when `locate` yields a concrete file, `load_fuzzy` performs the strict load
on it, propagating a successful project as present and propagating any IO or
parse failure unchanged as a typed error that carries the offending path. -/
theorem load_fuzzy_error_propagation (fs : Fs) (p : List Nat) :
    (Project.load_fuzzy fs p = .ok none ↔ Project.locate fs p = none)
  ∧ (∀ q, Project.locate fs p = some q →
      (∀ proj, Project.load_exact fs q = .ok proj →
          Project.load_fuzzy fs p = .ok (some proj))
      ∧ (∀ e, Project.load_exact fs q = .error e →
          Project.load_fuzzy fs p = .error e ∧ e.path = q)) := by
  constructor
  · constructor
    · intro h
      unfold Project.load_fuzzy at h
      split at h
      · split at h <;> simp_all
      · assumption
    · intro h
      simp [Project.load_fuzzy, h]
  · intro q hq
    constructor
    · intro proj hproj
      simp [Project.load_fuzzy, hq, hproj]
    · intro e he
      refine ⟨?_, load_exact_error_path fs q e he⟩
      simp [Project.load_fuzzy, hq, he]

/-- C4 witness: a malformed `default.project.json` under `/bad` makes
`load_fuzzy` fail with a parse error carrying the child path, while a
missing path yields `Ok(None)`. -/
theorem load_fuzzy_error_propagation_witness :
    Project.load_fuzzy fsBad (ascii ("/bad")) =
      .error (LoadErr.Json (pathJoin (ascii ("/bad")) PROJECT_FILENAME) PErr.malformed)
  ∧ LoadErr.path (LoadErr.Json (pathJoin (ascii ("/bad")) PROJECT_FILENAME) PErr.malformed)
      = pathJoin (ascii ("/bad")) PROJECT_FILENAME
  ∧ Project.load_fuzzy fsBad (ascii ("/nothing")) = .ok none := by
  refine ⟨?_, ?_, ?_⟩
  · exact (((load_fuzzy_error_propagation fsBad (ascii ("/bad"))).2
      (pathJoin (ascii ("/bad")) PROJECT_FILENAME) (by decide)).2
      (LoadErr.Json (pathJoin (ascii ("/bad")) PROJECT_FILENAME) PErr.malformed) rfl).1
  · exact (((load_fuzzy_error_propagation fsBad (ascii ("/bad"))).2
      (pathJoin (ascii ("/bad")) PROJECT_FILENAME) (by decide)).2
      (LoadErr.Json (pathJoin (ascii ("/bad")) PROJECT_FILENAME) PErr.malformed) rfl).2
  · exact (load_fuzzy_error_propagation fsBad (ascii ("/nothing"))).1.mpr (by decide)

/-- C8: every project handed out by `load_from_slice` carries the explicitly
supplied location as its `file_location`, and every project handed out by
`load_fuzzy` (through the strict load) carries the concrete located path;
none escapes with the field left at its `PathBuf` default. -/
theorem file_location_always_stamped (fs : Fs) (p : List Nat) (proj : Project) :
    (∀ contents loc, Project.load_from_slice contents loc = .ok proj →
        proj.file_location = loc)
  ∧ (Project.load_fuzzy fs p = .ok (some proj) →
        ∃ q, Project.locate fs p = some q ∧ proj.file_location = q) := by
  constructor
  · exact fun contents loc h => load_from_slice_ok_file_location contents loc proj h
  · intro h
    unfold Project.load_fuzzy at h
    split at h
    case _ q hq =>
      split at h
      case _ pr hpr =>
        injection h with h'
        injection h' with h''
        subst h''
        exact ⟨q, hq, load_exact_ok_file_location fs q pr hpr⟩
      case _ e he => exact absurd h (by simp)
    case _ => exact absurd h (by simp)

/-- C8 witness: the project loaded fuzzily from `/proj` carries the located
child path, and a slice-loaded project carries the supplied location. -/
theorem file_location_always_stamped_witness :
    (∃ q, Project.locate fsProj (ascii ("/proj")) = some q
        ∧ (Project.mk (ascii ("Demo")) demoNode none none
            (pathJoin (ascii ("/proj")) PROJECT_FILENAME)).file_location = q)
  ∧ (Project.mk (ascii ("Demo")) demoNode none none (ascii ("/x.project.json"))).file_location
      = ascii ("/x.project.json") := by
  constructor
  · exact (file_location_always_stamped fsProj (ascii ("/proj"))
      (Project.mk (ascii ("Demo")) demoNode none none
        (pathJoin (ascii ("/proj")) PROJECT_FILENAME))).2 rfl
  · exact (file_location_always_stamped fsProj (ascii ("/proj"))
      (Project.mk (ascii ("Demo")) demoNode none none (ascii ("/x.project.json")))).1
      minimalDocBytes (ascii ("/x.project.json")) rfl

/-- The `Project` field driver fails on a member list containing a key that
is none of the four schema fields, whatever state it starts from. -/
theorem projectFields_unknown_fails :
    ∀ (fields : List (List Nat × Json)) (k : List Nat) (v : Json),
      (k, v) ∈ fields →
      k ≠ keyName → k ≠ keyTree → k ≠ keyServePort → k ≠ keyServePlaceIds →
      ∀ nm tr port ids, ∃ e, projectFields fields nm tr port ids = .error e := by
  intro fields
  induction fields with
  | nil =>
    intro k v hmem
    cases hmem
  | cons hd rest ih =>
    intro k v hmem h1 h2 h3 h4 nm tr port ids
    obtain ⟨k', v'⟩ := hd
    rcases List.mem_cons.mp hmem with heq | htail
    · obtain ⟨rfl, rfl⟩ : k' = k ∧ v' = v := by
        injection heq with ha hb
        exact ⟨ha.symm, hb.symm⟩
      simp only [projectFields, projectStep, if_neg h1, if_neg h2, if_neg h3, if_neg h4]
      exact ⟨_, rfl⟩
    · simp only [projectFields]
      repeat' split
      all_goals first
        | exact ⟨_, rfl⟩
        | exact ih k v htail h1 h2 h3 h4 _ _ _ _

/-- C5: deserializing a document whose top level contains a key other than
`name`, `tree`, `servePort`, `servePlaceIds` fails with a parse-kind error
(every `PErr` value surfaces through `from_slice`/`load_exact` as the
parse-failure variant) instead of silently ignoring the field. -/
theorem unknown_top_level_key_rejected (fields : List (List Nat × Json))
    (k : List Nat) (v : Json) (hmem : (k, v) ∈ fields)
    (h1 : k ≠ keyName) (h2 : k ≠ keyTree)
    (h3 : k ≠ keyServePort) (h4 : k ≠ keyServePlaceIds) :
    ∃ e, Project.fromJson (Json.obj fields) = .error e := by
  exact projectFields_unknown_fails fields k v hmem h1 h2 h3 h4 none none none none

/-- C5 witness: the minimal document extended with `"foo": 1` is rejected. -/
theorem unknown_top_level_key_rejected_witness :
    ∃ e, Project.fromJson (Json.obj
      [(keyName, Json.str (ascii ("Demo"))),
       (keyTree, Json.obj [(keyClassName, Json.str (ascii ("Folder")))]),
       (ascii ("foo"), Json.num 1)]) = .error e := by
  exact unknown_top_level_key_rejected _ (ascii ("foo")) (Json.num 1)
    (by simp) (by decide) (by decide) (by decide) (by decide)

/-- Extract the `ignore_unknown_instances` component from a node-state
tuple equality. -/
theorem nodeSt_eq_iui {a₁ a₂ : Option (Option (List Nat))}
    {b₁ b₂ : Option (List (List Nat × Json))} {c₁ c₂ : Option (Option Bool)}
    {d₁ d₂ : Option (Option (List Nat))} {e₁ e₂ : List (List Nat × ProjectNode)}
    (h : ((a₁, b₁, c₁, d₁, e₁) : NodeSt) = (a₂, b₂, c₂, d₂, e₂)) : c₂ = c₁ :=
  (congrArg (fun t => t.2.2.1) h).symm

/-- A reserved-key step with a key other than `$ignoreUnknownInstances`
leaves the `ignore_unknown_instances` state untouched. -/
theorem applyNodeField_iui_preserved (k : List Nat) (v : Json)
    (cn : Option (Option (List Nat))) (pr : Option (List (List Nat × Json)))
    (iui : Option (Option Bool)) (pa : Option (Option (List Nat)))
    (ch : List (List Nat × ProjectNode))
    (cn' : Option (Option (List Nat))) (pr' : Option (List (List Nat × Json)))
    (iui' : Option (Option Bool)) (pa' : Option (Option (List Nat)))
    (ch' : List (List Nat × ProjectNode))
    (hk : k ≠ keyIgnoreUnknownInstances)
    (h : applyNodeField k v cn pr iui pa ch = some (.ok (cn', pr', iui', pa', ch'))) :
    iui' = iui := by
  unfold applyNodeField at h
  by_cases h1 : k = keyClassName
  · rw [if_pos h1] at h
    cases cn <;> cases v <;> simp_all [deserClassName, Except.map, Prod.mk.injEq] <;>
      exact nodeSt_eq_iui h
  · rw [if_neg h1] at h
    by_cases h2 : k = keyProperties
    · rw [if_pos h2] at h
      cases pr <;> cases v <;> simp_all [deserProps, Except.map, Prod.mk.injEq] <;>
      exact nodeSt_eq_iui h
    · rw [if_neg h2] at h
      by_cases h3 : k = keyIgnoreUnknownInstances
      · exact absurd h3 hk
      · rw [if_neg h3] at h
        by_cases h4 : k = keyPath
        · rw [if_pos h4] at h
          cases pa <;> cases v <;> simp_all [deserPath, Except.map, Prod.mk.injEq] <;>
      exact nodeSt_eq_iui h
        · rw [if_neg h4] at h
          exact Option.noConfusion h

/-- A step never succeeds on a second `$ignoreUnknownInstances` occurrence,
so once set, the state component is preserved by every successful step. -/
theorem applyNodeField_iui_some (k : List Nat) (v : Json)
    (cn : Option (Option (List Nat))) (pr : Option (List (List Nat × Json)))
    (x : Option Bool) (pa : Option (Option (List Nat)))
    (ch : List (List Nat × ProjectNode))
    (cn' : Option (Option (List Nat))) (pr' : Option (List (List Nat × Json)))
    (iui' : Option (Option Bool)) (pa' : Option (Option (List Nat)))
    (ch' : List (List Nat × ProjectNode))
    (h : applyNodeField k v cn pr (some x) pa ch = some (.ok (cn', pr', iui', pa', ch'))) :
    iui' = some x := by
  by_cases hk : k = keyIgnoreUnknownInstances
  · subst hk
    unfold applyNodeField at h
    rw [if_neg (by decide), if_neg (by decide), if_pos rfl] at h
    simp [deserIui, Except.map] at h
  · exact applyNodeField_iui_preserved k v cn pr (some x) pa ch cn' pr' iui' pa' ch' hk h

/-- The `$ignoreUnknownInstances` step on an explicit boolean records it. -/
theorem applyNodeField_iui_set (v : Bool)
    (cn : Option (Option (List Nat))) (pr : Option (List (List Nat × Json)))
    (pa : Option (Option (List Nat))) (ch : List (List Nat × ProjectNode)) :
    applyNodeField keyIgnoreUnknownInstances (Json.bool v) cn pr none pa ch =
      some (.ok (cn, pr, some (some v), pa, ch)) := by
  unfold applyNodeField
  rw [if_neg (by decide), if_neg (by decide), if_pos rfl]
  rfl

/-- Once the `ignore_unknown_instances` state is set, the produced node
carries exactly it. -/
theorem nodeFields_iui_some :
    ∀ (fields : List (List Nat × Json)) (fuel : Nat)
      (cn : Option (Option (List Nat))) (pr : Option (List (List Nat × Json)))
      (pa : Option (Option (List Nat))) (ch : List (List Nat × ProjectNode))
      (x : Option Bool) (node : ProjectNode),
      nodeFields fuel fields cn pr (some x) pa ch = .ok node →
      node.ignore_unknown_instances = x := by
  intro fields
  induction fields with
  | nil =>
    intro fuel cn pr pa ch x node h
    simp only [nodeFields] at h
    injection h with h'
    subst h'
    rfl
  | cons hd rest ih =>
    intro fuel cn pr pa ch x node h
    obtain ⟨k, v⟩ := hd
    cases fuel with
    | zero =>
      simp only [nodeFields] at h
      exact Except.noConfusion h
    | succ fuel =>
      simp only [nodeFields] at h
      split at h
      · exact Except.noConfusion h
      case _ cn' pr' iui' pa' ch' heq =>
        rw [applyNodeField_iui_some k v cn pr x pa ch cn' pr' iui' pa' ch' heq] at h
        exact ih fuel cn' pr' pa' ch' x node h
      · split at h
        · exact Except.noConfusion h
        · exact ih fuel cn pr pa _ x node h

/-- When `$ignoreUnknownInstances` never occurs among the remaining fields,
the produced node keeps the current state (`none` stays `none`). -/
theorem nodeFields_iui_absent :
    ∀ (fields : List (List Nat × Json)) (fuel : Nat)
      (cn : Option (Option (List Nat))) (pr : Option (List (List Nat × Json)))
      (pa : Option (Option (List Nat))) (ch : List (List Nat × ProjectNode))
      (node : ProjectNode),
      keyIgnoreUnknownInstances ∉ fields.map Prod.fst →
      nodeFields fuel fields cn pr none pa ch = .ok node →
      node.ignore_unknown_instances = none := by
  intro fields
  induction fields with
  | nil =>
    intro fuel cn pr pa ch node _ h
    simp only [nodeFields] at h
    injection h with h'
    subst h'
    rfl
  | cons hd rest ih =>
    intro fuel cn pr pa ch node hmem h
    obtain ⟨k, v⟩ := hd
    simp only [List.map_cons, List.mem_cons, not_or] at hmem
    obtain ⟨hne, hrest⟩ := hmem
    cases fuel with
    | zero =>
      simp only [nodeFields] at h
      exact Except.noConfusion h
    | succ fuel =>
      simp only [nodeFields] at h
      split at h
      · exact Except.noConfusion h
      case _ cn' pr' iui' pa' ch' heq =>
        rw [applyNodeField_iui_preserved k v cn pr none pa ch cn' pr' iui' pa' ch'
          (fun he => hne he.symm) heq] at h
        exact ih fuel cn' pr' pa' ch' node hrest h
      · split at h
        · exact Except.noConfusion h
        · exact ih fuel cn pr pa _ node hrest h

/-- When `$ignoreUnknownInstances` occurs with boolean value `b` (at every
occurrence), a successful parse records `some b`. -/
theorem nodeFields_iui_present :
    ∀ (fields : List (List Nat × Json)) (fuel : Nat)
      (cn : Option (Option (List Nat))) (pr : Option (List (List Nat × Json)))
      (pa : Option (Option (List Nat))) (ch : List (List Nat × ProjectNode))
      (node : ProjectNode) (b : Bool),
      keyIgnoreUnknownInstances ∈ fields.map Prod.fst →
      (∀ kv ∈ fields, kv.1 = keyIgnoreUnknownInstances → kv.2 = Json.bool b) →
      nodeFields fuel fields cn pr none pa ch = .ok node →
      node.ignore_unknown_instances = some b := by
  intro fields
  induction fields with
  | nil =>
    intro fuel cn pr pa ch node b hmem _ _
    simp at hmem
  | cons hd rest ih =>
    intro fuel cn pr pa ch node b hmem hall h
    obtain ⟨k, v⟩ := hd
    cases fuel with
    | zero =>
      simp only [nodeFields] at h
      exact Except.noConfusion h
    | succ fuel =>
      by_cases hk : k = keyIgnoreUnknownInstances
      · subst hk
        have hv : v = Json.bool b := hall (keyIgnoreUnknownInstances, v) (List.mem_cons_self _ _) rfl
        subst hv
        simp only [nodeFields] at h
        rw [applyNodeField_iui_set b cn pr pa ch] at h
        exact nodeFields_iui_some rest fuel cn pr pa ch (some b) node h
      · have hmem' : keyIgnoreUnknownInstances ∈ rest.map Prod.fst := by
          simp only [List.map_cons, List.mem_cons] at hmem
          rcases hmem with h' | h'
          · exact absurd h'.symm hk
          · exact h'
        have hall' : ∀ kv ∈ rest, kv.1 = keyIgnoreUnknownInstances → kv.2 = Json.bool b :=
          fun kv hm => hall kv (List.mem_cons_of_mem _ hm)
        simp only [nodeFields] at h
        split at h
        · exact Except.noConfusion h
        case _ cn' pr' iui' pa' ch' heq =>
          rw [applyNodeField_iui_preserved k v cn pr none pa ch cn' pr' iui' pa' ch' hk heq] at h
          exact ih fuel cn' pr' pa' ch' node b hmem' hall' h
        · split at h
          · exact Except.noConfusion h
          · exact ih fuel cn pr pa _ node b hmem' hall' h

/-- C1: for every `ProjectNode` parsed from a document object, if
`$ignoreUnknownInstances` is unset in the source document the parsed field
is unset and its effective value is the default matrix — `true` exactly when
`path` is unset, `false` when `path` is set (`node.path.isNone`); if the
document writes an explicit boolean, the parsed field records it and the
effective value is exactly it, overriding the default. -/
theorem ignore_unknown_instances_default (fields : List (List Nat × Json))
    (node : ProjectNode)
    (h : ProjectNode.fromJson (Json.obj fields) = .ok node) :
    (keyIgnoreUnknownInstances ∉ fields.map Prod.fst →
        node.ignore_unknown_instances = none
      ∧ node.effective_ignore_unknown_instances = node.path.isNone)
  ∧ (∀ b : Bool, keyIgnoreUnknownInstances ∈ fields.map Prod.fst →
        (∀ kv ∈ fields, kv.1 = keyIgnoreUnknownInstances → kv.2 = Json.bool b) →
        node.ignore_unknown_instances = some b
      ∧ node.effective_ignore_unknown_instances = b) := by
  have h' : nodeFields (jsonSizeFields fields) fields none none none none [] = .ok node := h
  constructor
  · intro habs
    have h1 := nodeFields_iui_absent fields (jsonSizeFields fields) none none none [] node habs h'
    refine ⟨h1, ?_⟩
    simp [ProjectNode.effective_ignore_unknown_instances, h1]
  · intro b hmem hall
    have h1 := nodeFields_iui_present fields (jsonSizeFields fields) none none none [] node b hmem hall h'
    refine ⟨h1, ?_⟩
    simp [ProjectNode.effective_ignore_unknown_instances, h1]

/-- C1 witness: a node without the key defaults (`none`, effective `true`
since `path` is unset), and a node writing `false` explicitly records and
uses it. -/
theorem ignore_unknown_instances_default_witness :
    demoNode.ignore_unknown_instances = none
  ∧ demoNode.effective_ignore_unknown_instances = demoNode.path.isNone
  ∧ demoNode.effective_ignore_unknown_instances = true
  ∧ (ProjectNode.mk (some (ascii ("Folder"))) [] [] (some false) none).ignore_unknown_instances = some false
  ∧ (ProjectNode.mk (some (ascii ("Folder"))) [] [] (some false) none).effective_ignore_unknown_instances = false := by
  have t1 := ignore_unknown_instances_default
    [(keyClassName, Json.str (ascii ("Folder")))] demoNode rfl
  have h1 := t1.1 (by decide)
  have t2 := ignore_unknown_instances_default
    [(keyClassName, Json.str (ascii ("Folder"))),
     (keyIgnoreUnknownInstances, Json.bool false)]
    (ProjectNode.mk (some (ascii ("Folder"))) [] [] (some false) none) rfl
  have h2 := t2.2 false (by decide) (by
    intro kv hm
    rcases List.mem_cons.mp hm with rfl | hm'
    · intro hk
      exact absurd hk (by decide)
    · rcases List.mem_cons.mp hm' with rfl | hm''
      · intro _
        rfl
      · cases hm'')
  exact ⟨h1.1, h1.2, h1.2, h2.1, h2.2⟩

/-- A child bound in a `children` map is smaller than the map. -/
theorem sizeOf_child_lt_children {k : List Nat} {c : ProjectNode}
    {ch : List (List Nat × ProjectNode)} (h : (k, c) ∈ ch) : sizeOf c < sizeOf ch := by
  induction ch with
  | nil => cases h
  | cons hd rest ih =>
    rcases List.mem_cons.mp h with rfl | h'
    · simp only [List.cons.sizeOf_spec, Prod.mk.sizeOf_spec]
      omega
    · have := ih h'
      simp only [List.cons.sizeOf_spec]
      omega

/-- The `children` map is smaller than the node holding it. -/
theorem sizeOf_children_lt (a : Option (List Nat)) (ch : List (List Nat × ProjectNode))
    (c : List (List Nat × Json)) (d : Option Bool) (e : Option (List Nat)) :
    sizeOf ch < sizeOf (ProjectNode.mk a ch c d e) := by
  simp only [ProjectNode.mk.sizeOf_spec]
  omega

/-- The validation loop over a `children` map reports exactly the `$`-keys of
the map and of all descendants, given that recursion into each child does. -/
theorem validateChildrenNames_eq :
    ∀ (ch : List (List Nat × ProjectNode)),
      (∀ k c, (k, c) ∈ ch → c.validate_reserved_names
          = (allChildKeys c).filter (fun nm => nm.head? == some 36)) →
      validateChildrenNames ch
        = (allChildKeysOf ch).filter (fun nm => nm.head? == some 36) := by
  intro ch
  induction ch with
  | nil => intro _; rfl
  | cons hd rest ih =>
    intro hch
    obtain ⟨k, c⟩ := hd
    simp only [validateChildrenNames, allChildKeysOf, List.filter_cons, List.filter_append]
    rw [hch k c (List.mem_cons_self _ _),
      ih (fun k' c' hm => hch k' c' (List.mem_cons_of_mem _ hm))]
    by_cases hk : k.head? = some 36
    · simp [hk]
    · simp [hk]

/-- `validate_reserved_names` is the `$`-filter of the full key traversal
(proved by strong induction on the node size). -/
theorem validate_complete_aux :
    ∀ (fuel : Nat) (n : ProjectNode), sizeOf n ≤ fuel →
      n.validate_reserved_names
        = (allChildKeys n).filter (fun nm => nm.head? == some 36) := by
  intro fuel
  induction fuel with
  | zero =>
    intro n h
    exfalso
    cases n with
    | mk a ch c d e =>
      simp only [ProjectNode.mk.sizeOf_spec] at h
      omega
  | succ fuel ih =>
    intro n h
    cases n with
    | mk a ch c d e =>
      simp only [ProjectNode.validate_reserved_names, allChildKeys]
      apply validateChildrenNames_eq
      intro k c' hm
      apply ih
      have h1 := sizeOf_child_lt_children hm
      have h2 := sizeOf_children_lt a ch c d e
      omega

/-- C7: the validation pass is a depth-first traversal that reports exactly
every child key starting with `'$'` at any depth and nothing else (so it
never aborts early); on a tree with `$foo` nested three levels deep it emits
exactly the diagnostic naming `$foo`. The traversal takes the tree by shared
reference and returns only the diagnostics, so the tree is unchanged by
construction. -/
theorem validate_reserved_names_complete :
    (∀ n : ProjectNode, n.validate_reserved_names
        = (allChildKeys n).filter (fun nm => nm.head? == some 36))
  ∧ ascii ("$foo") ∈ deepDollarTree.validate_reserved_names
  ∧ deepDollarTree.validate_reserved_names = [ascii ("$foo")] := by
  refine ⟨fun n => validate_complete_aux (sizeOf n) n le_rfl, ?_, ?_⟩
  · decide
  · rfl

end Rojo
